import Mathlib

/-!
Verification of the symbols-mcp-server repository against its natural-language
specification.  Text is embedded as `List Char` (Python `str`), Python dicts
with known fields as structures with `Option` fields, and fallible operations
as `Option`.  All definitions are translated from the source files
`proxy_api.py` and `symbols_mcp/server.py`; definitions whose doc comment says
"transcription of the spec" render a spec sentence instead, for comparison
with the source translation.
-/

/-- Python strings are modelled as lists of characters. -/
abbrev Str := List Char

/-- Coerce a Lean string literal into the `Str` model. -/
def strL (s : String) : Str := s.data

/-- Python `str.lower()` (character-wise, as for the ASCII texts involved). -/
def lower (s : Str) : Str := s.map Char.toLower

/-- Python `needle in hay` on strings: contiguous-substring test. -/
def substr (needle hay : Str) : Bool := decide (needle <:+: hay)

/-- Python truthiness of an optional string (`os.getenv` result):
`None` and the empty string are falsy. -/
def optStrTruthy : Option Str → Bool
  | none => false
  | some s => !s.isEmpty

-- ---------------------------------------------------------------------------
-- Upstream gateway (`proxy_api.py` `chat`, `server.py` `proxy_chat`)
-- ---------------------------------------------------------------------------

/-- One element of the `messages` list of a chat request. -/
structure ChatMessage where
  role : Str
  content : Str
deriving DecidableEq

/-- The JSON body of a `POST /api/chat` request; `none` marks an absent key. -/
structure ChatBody where
  messages : Option (List ChatMessage)
  model : Option Str
  max_tokens : Option Nat
  temperature : Option ℚ
deriving DecidableEq

/-- Python truthiness of the request dict: an empty dict is falsy. -/
def bodyTruthy (b : ChatBody) : Bool :=
  b.messages.isSome || b.model.isSome || b.max_tokens.isSome || b.temperature.isSome

/-- The JSON body and timeout the gateway sends to the upstream
`chat/completions` endpoint (the timeout is the `httpx` request timeout). -/
structure ForwardedCall where
  model : Str
  messages : List ChatMessage
  max_tokens : Nat
  temperature : ℚ
  timeout : Nat
deriving DecidableEq

/-- Outcome of a gateway handler: an error response with an HTTP status and
message, or a forwarded upstream call. -/
inductive ChatResult
  | error (status : Nat) (msg : Str)
  | forward (call : ForwardedCall)
deriving DecidableEq

/-- HTTP status of a handler outcome (`none` when the request is forwarded). -/
def chatStatus : ChatResult → Option Nat
  | .error s _ => some s
  | .forward _ => none

def serverConfigMsg : Str := strL "Server configuration error"

def invalidRequestMsg : Str := strL "Invalid request - messages required"

def defaultModel : Str := strL "openai/gpt-4.1-mini"

/-- Flask variant (`proxy_api.py`, `chat`): `request.json` may be `None`
(modelled by the outer `Option`). -/
def chat (key : Option Str) (data : Option ChatBody) : ChatResult :=
  if optStrTruthy key = false then
    .error 500 serverConfigMsg
  else
    match data with
    | none => .error 400 invalidRequestMsg
    | some b =>
      if bodyTruthy b = false then .error 400 invalidRequestMsg
      else
        match b.messages with
        | none => .error 400 invalidRequestMsg
        | some msgs =>
          .forward ⟨b.model.getD defaultModel, msgs, b.max_tokens.getD 4000,
            b.temperature.getD ((7 : ℚ)/10), 60⟩

/-- FastAPI variant (`server.py`, `proxy_chat`): the handler receives a dict. -/
def proxy_chat (key : Option Str) (request : ChatBody) : ChatResult :=
  if optStrTruthy key = false then
    .error 500 serverConfigMsg
  else if bodyTruthy request = false then .error 400 invalidRequestMsg
  else
    match request.messages with
    | none => .error 400 invalidRequestMsg
    | some msgs =>
      .forward ⟨request.model.getD defaultModel, msgs, request.max_tokens.getD 4000,
        request.temperature.getD ((7 : ℚ)/10), 60⟩

/-- The all-absent (empty-dict) request body. -/
def emptyBody : ChatBody := ⟨none, none, none, none⟩

-- ---------------------------------------------------------------------------
-- Local knowledge lookup (`server.py`, `search_symbols_docs`)
-- ---------------------------------------------------------------------------

/-- A documentation file: its file name and full text content. -/
structure Document where
  name : Str
  content : Str
deriving DecidableEq

/-- A search result: `.file` from the local keyword scan, `.remote` from the
Supabase vector search. -/
inductive SearchResult
  | file (name snippet : Str)
  | remote (title content : Str) (similarity : ℚ)
deriving DecidableEq

/-- Query tokenization: `re.split(r"\s+", query.lower())` filtered to words of
length > 2, falling back to the whole lowercase query when nothing survives. -/
def tokenize (query : Str) : List Str :=
  let keywords := ((lower query).splitOnP Char.isWhitespace).filter (fun w => 2 < w.length)
  if keywords = [] then [lower query] else keywords

/-- Python `content.split("\n")`. -/
def splitLines : Str → List Str
  | [] => [[]]
  | c :: rest =>
    match splitLines rest with
    | [] => [[]]
    | l :: ls => if c = '\n' then [] :: l :: ls else (c :: l) :: ls

/-- Python `"\n".join(lines)`. -/
def joinLines (lines : List Str) : Str := List.intercalate ['\n'] lines

/-- `any(kw in line_lower for kw in keywords)` for one line. -/
def lineMatch (keywords : List Str) (line : Str) : Bool :=
  keywords.any fun kw => substr kw (lower line)

/-- `any(kw in content_lower for kw in keywords)` over the full document. -/
def contentMatch (keywords : List Str) (d : Document) : Bool :=
  keywords.any fun kw => substr kw (lower d.content)

/-- The inner `for i, line in enumerate(lines)` loop: index of the first line
containing a keyword, starting the count at `i`. -/
def firstMatchIdx (keywords : List Str) : List Str → Nat → Option Nat
  | [], _ => none
  | l :: ls, i => if lineMatch keywords l then some i else firstMatchIdx keywords ls (i + 1)

/-- The snippet a document contributes: the window
`lines[max(0, i-2) : min(len(lines), i+20)]` around the first matching line,
or `none` when no line matches. -/
def docSnippet (keywords : List Str) (d : Document) : Option SearchResult :=
  let lines := splitLines d.content
  match firstMatchIdx keywords lines 0 with
  | none => none
  | some i =>
    let start := i - 2
    let stop := min lines.length (i + 20)
    some (.file d.name (joinLines ((lines.drop start).take (stop - start))))

/-- What one document contributes inside the scan: the body of the
`for fname in SKILLS_PATH.glob("*.md")` loop (content gate, then the
first-matching-line window). -/
def searchDoc (keywords : List Str) (d : Document) : Option SearchResult :=
  if contentMatch keywords d then docSnippet keywords d else none

/-- The document scan loop: `continue` on the content gate, append the
snippet, `break` once `len(results) >= max_results`. -/
def localSearchGo (keywords : List Str) (maxResults : Nat) :
    List Document → List SearchResult → List SearchResult
  | [], acc => acc
  | d :: ds, acc =>
    if contentMatch keywords d = false then
      localSearchGo keywords maxResults ds acc
    else
      let acc' := match docSnippet keywords d with
        | none => acc
        | some r => acc ++ [r]
      if maxResults ≤ acc'.length then acc' else localSearchGo keywords maxResults ds acc'

/-- The local keyword search over the skills directory (documents given in
directory-iteration order). -/
def localSearch (keywords : List Str) (docs : List Document) (maxResults : Nat) :
    List SearchResult :=
  localSearchGo keywords maxResults docs []

/-- Transcription of the spec sentence for the per-document lookup, amended:
a document contributes a result iff some *line*'s lowercase form contains a
token; the snippet is the join of `lines[first-2 (clamped at 0) : first+20
(clamped at the line count)]` where `first` is the index of the first line
whose lowercase form contains a token. -/
def searchDocSpec (keywords : List Str) (d : Document) : Option SearchResult :=
  let lines := splitLines d.content
  if lines.any (lineMatch keywords) then
    let first := lines.findIdx (lineMatch keywords)
    some (.file d.name
      (joinLines ((lines.drop (first - 2)).take (min lines.length (first + 20) - (first - 2)))))
  else none

/-- One row of the Supabase `match_documents` response (absent JSON keys are
`none`). -/
structure RemoteDoc where
  title : Option Str
  content : Option Str
  similarity : Option ℚ
deriving DecidableEq

/-- `{"title": doc.get("title", "Untitled"), "content": doc.get("content", "")[:1000],
"similarity": doc.get("similarity", 0)}`. -/
def mkRemoteResult (d : RemoteDoc) : SearchResult :=
  .remote (d.title.getD (strL "Untitled")) ((d.content.getD []).take 1000) (d.similarity.getD 0)

/-- The `for doc in resp.json()[:max_results]: supabase_results.append(...)` loop. -/
def buildRemoteResults : List RemoteDoc → List SearchResult → List SearchResult
  | [], acc => acc
  | d :: ds, acc => buildRemoteResults ds (acc ++ [mkRemoteResult d])

/-- Outcome of the remote vector-search HTTP call: an exception, or a response
with a status code and decoded rows. -/
inductive RemoteOutcome
  | exn
  | status (code : Nat) (docs : List RemoteDoc)

/-- The `supabase_results` list after the `try`/`except` block: empty when the
call raised or returned a non-200 status. -/
def supabaseResults (o : RemoteOutcome) (maxResults : Nat) : List SearchResult :=
  match o with
  | .exn => []
  | .status code docs =>
    if code = 200 then buildRemoteResults (docs.take maxResults) [] else []

/-- `results = supabase_results + local_results; results[:max_results]` —
the list `search_symbols_docs` serializes when Supabase is configured. -/
def searchCombined (o : RemoteOutcome) (keywords : List Str) (docs : List Document)
    (maxResults : Nat) : List SearchResult :=
  (supabaseResults o maxResults ++ localSearch keywords docs maxResults).take maxResults

-- ---------------------------------------------------------------------------
-- Response cleaning (`server.py`, `_clean_code_response`)
-- ---------------------------------------------------------------------------

/-- Python `str.strip()`: drop leading and trailing whitespace. -/
def pyStrip (s : Str) : Str :=
  ((s.dropWhile Char.isWhitespace).reverse.dropWhile Char.isWhitespace).reverse

/-- The fence markers tried in order by `_clean_code_response`. -/
def fenceMarkers : List Str :=
  [strL "```javascript", strL "```js", strL "```json", strL "```"]

/-- The `for prefix in (...)` loop with `break`: drop the first matching fence
marker from the front. -/
def stripFenceStart (s : Str) : Str :=
  match fenceMarkers.find? (fun p => p.isPrefixOf s) with
  | some p => s.drop p.length
  | none => s

/-- `_clean_code_response`: strip, drop one leading fence marker, drop a
trailing triple backtick, strip again. -/
def _clean_code_response (text : Str) : Str :=
  let cleaned := pyStrip text
  let cleaned := stripFenceStart cleaned
  let cleaned := if (strL "```").isSuffixOf cleaned then cleaned.take (cleaned.length - 3)
    else cleaned
  pyStrip cleaned


-- ---------------------------------------------------------------------------
-- JSON model (`json.loads` / `json.dumps(..., indent=2)` as used by the tools)
-- ---------------------------------------------------------------------------

mutual
/-- A JSON value as handled by the generation tools.  Numbers are modelled as
integers (floating-point literals are outside the model). -/
inductive JVal
  | jnull
  | jbool (b : Bool)
  | jint (n : Int)
  | jstr (s : Str)
  | jarr (xs : JArr)
  | jobj (kvs : JObj)
/-- A JSON array. -/
inductive JArr
  | anil
  | acons (v : JVal) (xs : JArr)
/-- A JSON object: keys in insertion order. -/
inductive JObj
  | onil
  | ocons (k : Str) (v : JVal) (kvs : JObj)
end

/-- Decimal digits of `n`, most significant first; the fuel argument only
bounds the recursion depth (`n` itself is always enough). -/
def natDigitsGo : Nat → Nat → Str
  | 0, _ => []
  | fuel + 1, n =>
    if n < 10 then [Char.ofNat (48 + n)]
    else natDigitsGo fuel (n / 10) ++ [Char.ofNat (48 + n % 10)]

/-- Decimal digits of `n`, most significant first (`str(n)` for `n : Nat`). -/
def natDigits (n : Nat) : Str := natDigitsGo (n + 1) n

/-- Python `str(n)` for an integer. -/
def printInt (n : Int) : Str :=
  if n < 0 then '-' :: natDigits n.natAbs else natDigits n.natAbs

/-- Lowercase hexadecimal digit. -/
def hexDigitChar (n : Nat) : Char :=
  if n < 10 then Char.ofNat (48 + n) else Char.ofNat (87 + n)

/-- Four lowercase hex digits, as in `\uXXXX` escapes. -/
def hex4 (n : Nat) : Str :=
  [hexDigitChar (n / 4096 % 16), hexDigitChar (n / 256 % 16),
   hexDigitChar (n / 16 % 16), hexDigitChar (n % 16)]

/-- `json.dumps` string escaping with `ensure_ascii=True`: backslash, quote and
the named control characters get two-character escapes, every other character
outside printable ASCII becomes `\uXXXX` (a surrogate pair above U+FFFF). -/
def escChar (c : Char) : Str :=
  if c = '\\' then ['\\', '\\']
  else if c = '"' then ['\\', '"']
  else if c = Char.ofNat 8 then ['\\', 'b']
  else if c = Char.ofNat 12 then ['\\', 'f']
  else if c = '\n' then ['\\', 'n']
  else if c = '\r' then ['\\', 'r']
  else if c = '\t' then ['\\', 't']
  else if c.toNat < 32 ∨ 126 < c.toNat then
    if c.toNat < 65536 then '\\' :: 'u' :: hex4 c.toNat
    else
      let n := c.toNat - 65536
      ('\\' :: 'u' :: hex4 (55296 + n / 1024)) ++ ('\\' :: 'u' :: hex4 (56320 + n % 1024))
  else [c]

/-- Escape a whole string body. -/
def escapeStr (s : Str) : Str := (s.map escChar).flatten

/-- Serialize a JSON string, quotes included. -/
def printStr (s : Str) : Str := '"' :: escapeStr s ++ ['"']

/-- `n` spaces of indentation. -/
def spacesN (n : Nat) : Str := List.replicate n ' '

mutual
/-- `json.dumps(v, indent=2)` at indentation level `ind`. -/
def printVal (ind : Nat) : JVal → Str
  | .jnull => strL "null"
  | .jbool true => strL "true"
  | .jbool false => strL "false"
  | .jint n => printInt n
  | .jstr s => printStr s
  | .jarr .anil => strL "[]"
  | .jarr (.acons v xs) =>
    '[' :: '\n' :: (printItems (ind + 1) (.acons v xs) ++ '\n' :: (spacesN (2 * ind) ++ [']']))
  | .jobj .onil => ['\x7b', '\x7d']
  | .jobj (.ocons k v kvs) =>
    '\x7b' :: '\n' ::
      (printEntries (ind + 1) (.ocons k v kvs) ++ '\n' :: (spacesN (2 * ind) ++ ['\x7d']))
/-- The `",\n"`-joined, indented items of a non-empty array. -/
def printItems (ind : Nat) : JArr → Str
  | .anil => []
  | .acons v xs =>
    spacesN (2 * ind) ++ printVal ind v ++
      (match xs with
       | .anil => []
       | .acons w ys => ',' :: '\n' :: printItems ind (.acons w ys))
/-- The `",\n"`-joined, indented `"key": value` entries of a non-empty object. -/
def printEntries (ind : Nat) : JObj → Str
  | .onil => []
  | .ocons k v kvs =>
    spacesN (2 * ind) ++ printStr k ++ ':' :: ' ' :: printVal ind v ++
      (match kvs with
       | .onil => []
       | .ocons k2 v2 rest => ',' :: '\n' :: printEntries ind (.ocons k2 v2 rest))
end

/-- `json.dumps(v, indent=2)`. -/
def json_dumps (v : JVal) : Str := printVal 0 v

mutual
/-- Fuel bound sufficient for the parser to reconstruct a value. -/
def sizeV : JVal → Nat
  | .jnull => 1
  | .jbool _ => 1
  | .jint _ => 1
  | .jstr _ => 1
  | .jarr xs => 2 + sizeA xs
  | .jobj kvs => 2 + sizeO kvs
/-- Fuel bound for the items of an array. -/
def sizeA : JArr → Nat
  | .anil => 0
  | .acons v xs => 1 + sizeV v + sizeA xs
/-- Fuel bound for the entries of an object. -/
def sizeO : JObj → Nat
  | .onil => 0
  | .ocons _ v kvs => 1 + sizeV v + sizeO kvs
end

/-- The whitespace characters `json.loads` skips between tokens. -/
def isJsonWs (c : Char) : Bool := c = ' ' || c = '\t' || c = '\n' || c = '\r'

/-- Skip inter-token whitespace. -/
def skipWs (s : Str) : Str := s.dropWhile isJsonWs

/-- Whether a string is whitespace only (what may trail the decoded value). -/
def wsOnly (s : Str) : Bool := s.all isJsonWs

/-- Decimal digit value of a character. -/
def charDigit (c : Char) : Option Nat :=
  if 48 ≤ c.toNat ∧ c.toNat ≤ 57 then some (c.toNat - 48) else none

/-- Whether a string does not begin with a decimal digit (so a preceding
number token cannot absorb its head). -/
def noDigitHead : Str → Bool
  | [] => true
  | c :: _ => (charDigit c).isNone

/-- Hexadecimal digit value of a character. -/
def charHexVal (c : Char) : Option Nat :=
  if 48 ≤ c.toNat ∧ c.toNat ≤ 57 then some (c.toNat - 48)
  else if 97 ≤ c.toNat ∧ c.toNat ≤ 102 then some (c.toNat - 87)
  else if 65 ≤ c.toNat ∧ c.toNat ≤ 70 then some (c.toNat - 55)
  else none

/-- Consume a run of decimal digits, accumulating most-significant-first. -/
def readDigitsAux : Str → Nat → Nat × Str
  | [], acc => (acc, [])
  | c :: rest, acc =>
    match charDigit c with
    | some d => readDigitsAux rest (acc * 10 + d)
    | none => (acc, c :: rest)

/-- An unsigned JSON integer literal: `0` or `[1-9][0-9]*`. -/
def parseNatTok : Str → Option (Nat × Str)
  | [] => none
  | c :: rest =>
    match charDigit c with
    | none => none
    | some d => if d = 0 then some (0, rest) else some (readDigitsAux rest d)

/-- A signed JSON integer literal. -/
def parseIntTok (s : Str) : Option (Int × Str) :=
  match s with
  | [] => none
  | c :: rest =>
    if c = '-' then
      match parseNatTok rest with
      | some (n, r) => some (-(n : Int), r)
      | none => none
    else
      match parseNatTok (c :: rest) with
      | some (n, r) => some ((n : Int), r)
      | none => none

/-- The single-character string escapes accepted after a backslash. -/
def escDecode (e : Char) : Option Char :=
  if e = '"' then some '"'
  else if e = '\\' then some '\\'
  else if e = '/' then some '/'
  else if e = 'b' then some (Char.ofNat 8)
  else if e = 'f' then some (Char.ofNat 12)
  else if e = 'n' then some '\n'
  else if e = 'r' then some '\r'
  else if e = 't' then some '\t'
  else none

/-- Read a `\uXXXX` payload: four hex digits and the remainder. -/
def parseHex4 : Str → Option (Nat × Str)
  | a :: b :: c :: d :: rest =>
    match charHexVal a, charHexVal b, charHexVal c, charHexVal d with
    | some va, some vb, some vc, some vd =>
      some (((va * 16 + vb) * 16 + vc) * 16 + vd, rest)
    | _, _, _, _ => none
  | _ => none

/-- Decode a JSON string body after the opening quote, up to and including the
closing quote.  Strict mode: raw control characters are rejected; `\uXXXX`
escapes combine surrogate pairs (lone surrogates fall outside the `Char`
model and are rejected).  The fuel only bounds the recursion depth; callers
supply the input length plus one, which always suffices. -/
def parseStrChars : Nat → Str → Option (Str × Str)
  | 0, _ => none
  | fuel + 1, s =>
    match s with
    | [] => none
    | c :: rest =>
      if c = '"' then some ([], rest)
      else if c = '\\' then
        match rest with
        | [] => none
        | e :: rest2 =>
          if e = 'u' then
            match parseHex4 rest2 with
            | none => none
            | some (u, rest3) =>
              if 55296 ≤ u ∧ u < 56320 then
                match rest3 with
                | bs :: uc :: rest4 =>
                  if bs = '\\' then
                    if uc = 'u' then
                      match parseHex4 rest4 with
                      | none => none
                      | some (u2, rest5) =>
                        if 56320 ≤ u2 ∧ u2 < 57344 then
                          match parseStrChars fuel rest5 with
                          | some (s1, r) =>
                            some (Char.ofNat (65536 + (u - 55296) * 1024 + (u2 - 56320)) :: s1, r)
                          | none => none
                        else none
                    else none
                  else none
                | _ => none
              else if 56320 ≤ u ∧ u < 57344 then none
              else
                match parseStrChars fuel rest3 with
                | some (s1, r) => some (Char.ofNat u :: s1, r)
                | none => none
          else
            match escDecode e with
            | some dc =>
              match parseStrChars fuel rest2 with
              | some (s1, r) => some (dc :: s1, r)
              | none => none
            | none => none
      else if c.toNat < 32 then none
      else
        match parseStrChars fuel rest with
        | some (s1, r) => some (c :: s1, r)
        | none => none

mutual
/-- Decode one JSON value starting at `s` (leading whitespace allowed),
returning it with the unconsumed remainder.  `fuel` bounds the nesting
descent; `json_loads` supplies enough for any input. -/
def parseVal : Nat → Str → Option (JVal × Str)
  | 0, _ => none
  | fuel + 1, s =>
    match skipWs s with
    | [] => none
    | c :: r =>
      if c = 'n' then
        match r with
        | 'u' :: 'l' :: 'l' :: r2 => some (.jnull, r2)
        | _ => none
      else if c = 't' then
        match r with
        | 'r' :: 'u' :: 'e' :: r2 => some (.jbool true, r2)
        | _ => none
      else if c = 'f' then
        match r with
        | 'a' :: 'l' :: 's' :: 'e' :: r2 => some (.jbool false, r2)
        | _ => none
      else if c = '"' then
        match parseStrChars (r.length + 1) r with
        | some (str, r2) => some (.jstr str, r2)
        | none => none
      else if c = '[' then
        match parseArrElems fuel r with
        | some (xs, r2) => some (.jarr xs, r2)
        | none => none
      else if c = '\x7b' then
        match parseObjEntries fuel r with
        | some (kvs, r2) => some (.jobj kvs, r2)
        | none => none
      else
        match parseIntTok (c :: r) with
        | some (n, r2) => some (.jint n, r2)
        | none => none
/-- Decode the contents of an array, right after the `[`. -/
def parseArrElems : Nat → Str → Option (JArr × Str)
  | 0, _ => none
  | fuel + 1, s =>
    match skipWs s with
    | c :: r => if c = ']' then some (.anil, r) else parseArrItems fuel s
    | [] => parseArrItems fuel s
/-- Decode one-or-more comma-separated array items. -/
def parseArrItems : Nat → Str → Option (JArr × Str)
  | 0, _ => none
  | fuel + 1, s =>
    match parseVal fuel s with
    | none => none
    | some (v, r1) =>
      match skipWs r1 with
      | ',' :: r2 =>
        match parseArrItems fuel r2 with
        | some (xs, r3) => some (.acons v xs, r3)
        | none => none
      | ']' :: r2 => some (.acons v .anil, r2)
      | _ => none
/-- Decode the contents of an object, right after the `{`. -/
def parseObjEntries : Nat → Str → Option (JObj × Str)
  | 0, _ => none
  | fuel + 1, s =>
    match skipWs s with
    | c :: r =>
      if c = '\x7d' then some (.onil, r)
      else parseObjItems fuel s
    | [] => none
/-- Decode one-or-more comma-separated `"key": value` object entries. -/
def parseObjItems : Nat → Str → Option (JObj × Str)
  | 0, _ => none
  | fuel + 1, s =>
    match skipWs s with
    | '"' :: r =>
      match parseStrChars (r.length + 1) r with
      | none => none
      | some (k, r1) =>
        match skipWs r1 with
        | ':' :: r2 =>
          match parseVal fuel r2 with
          | none => none
          | some (v, r3) =>
            match skipWs r3 with
            | ',' :: r4 =>
              match parseObjItems fuel r4 with
              | some (kvs, r5) => some (.ocons k v kvs, r5)
              | none => none
            | c :: r4 => if c = '\x7d' then some (.ocons k v .onil, r4) else none
            | [] => none
        | _ => none
    | _ => none
end

/-- `json.loads`: decode a value and require only whitespace to follow. -/
def json_loads (s : Str) : Option JVal :=
  match parseVal (s.length + 1) s with
  | some (v, rest) => if wsOnly rest then some v else none
  | none => none

/-- The shared tail of `generate_project` and `create_design_system`:
pretty-print the parsed JSON, falling back to the cleaned raw text when
parsing fails. -/
def jsonPostProcess (cleaned : Str) : Str :=
  match json_loads cleaned with
  | some parsed => json_dumps parsed
  | none => cleaned

-- ---------------------------------------------------------------------------
-- `_call_openrouter` and the generation tools' result pipelines
-- ---------------------------------------------------------------------------

/-- Which branch `_call_openrouter` takes, from the two environment values. -/
inductive LLMRoute
  | viaProxy
  | direct
  | noCreds

/-- The branch selection of `_call_openrouter`: proxy when `SYMBOLS_MCP_URL`
is truthy, else direct when `OPENROUTER_API_KEY` is truthy, else neither. -/
def callRoute (proxyUrl apiKey : Option Str) : LLMRoute :=
  if optStrTruthy proxyUrl then .viaProxy
  else if optStrTruthy apiKey then .direct
  else .noCreds

def openrouterErrorMsg : Str :=
  strL "Error: Either SYMBOLS_MCP_URL or OPENROUTER_API_KEY must be set"

/-- The string `_call_openrouter` returns.  `upstream` stands for the message
content extracted from the HTTP response on the two networked branches; on the
credential-less branch the literal error string is returned as an ordinary
value. -/
def _call_openrouter (proxyUrl apiKey : Option Str) (upstream : Str) : Str :=
  match callRoute proxyUrl apiKey with
  | .viaProxy => upstream
  | .direct => upstream
  | .noCreds => openrouterErrorMsg

/-- `generate_component`'s result: the cleaned `_call_openrouter` output (the
prompt construction is pure string interpolation and does not affect the
returned value's shape). -/
def generate_component_result (proxyUrl apiKey : Option Str) (upstream : Str) : Str :=
  _clean_code_response (_call_openrouter proxyUrl apiKey upstream)

/-- `generate_page`'s result. -/
def generate_page_result (proxyUrl apiKey : Option Str) (upstream : Str) : Str :=
  _clean_code_response (_call_openrouter proxyUrl apiKey upstream)

/-- `convert_to_symbols`'s result. -/
def convert_to_symbols_result (proxyUrl apiKey : Option Str) (upstream : Str) : Str :=
  _clean_code_response (_call_openrouter proxyUrl apiKey upstream)

/-- `generate_project`'s result: clean, then parse-and-pretty-print with a
raw-text fallback. -/
def generate_project_result (proxyUrl apiKey : Option Str) (upstream : Str) : Str :=
  jsonPostProcess (_clean_code_response (_call_openrouter proxyUrl apiKey upstream))

/-- `create_design_system`'s result: same tail as `generate_project`. -/
def create_design_system_result (proxyUrl apiKey : Option Str) (upstream : Str) : Str :=
  jsonPostProcess (_clean_code_response (_call_openrouter proxyUrl apiKey upstream))

/-- `explain_symbols_concept`'s result: the raw `_call_openrouter` output. -/
def explain_symbols_concept_result (proxyUrl apiKey : Option Str) (upstream : Str) : Str :=
  _call_openrouter proxyUrl apiKey upstream

/-- `review_symbols_code`'s result: the raw `_call_openrouter` output. -/
def review_symbols_code_result (proxyUrl apiKey : Option Str) (upstream : Str) : Str :=
  _call_openrouter proxyUrl apiKey upstream

-- ---------------------------------------------------------------------------
-- Concrete fixtures used by witnesses and counterexamples
-- ---------------------------------------------------------------------------

/-- Keywords of the query "routing". -/
def demoKeywords : List Str := tokenize (strL "routing")

/-- Three documents that all contain the token "routing". -/
def demoDocs : List Document :=
  [⟨strL "a.md", strL "about routing here"⟩,
   ⟨strL "b.md", strL "routing tips"⟩,
   ⟨strL "c.md", strL "x\nmore routing\ny"⟩]

/-- A request body carrying only a `messages` list. -/
def demoBody : ChatBody :=
  ⟨some [⟨strL "user", strL "hi"⟩], none, none, none⟩


-- ===========================================================================
-- Theorems
-- ===========================================================================

/-- Claim C1, counterexample to the statement as written: with the credential
unset and a `messages`-less (empty) body, both gateway variants answer
HTTP 500, not 400 — the configuration check precedes request validation. -/
theorem c1_counterexample :
    chatStatus (chat none (some emptyBody)) = some 500 ∧
    chatStatus (proxy_chat none emptyBody) = some 500 ∧
    chatStatus (chat none (some emptyBody)) ≠ some 400 ∧
    chatStatus (proxy_chat none emptyBody) ≠ some 400 := by decide

/-- Claim C1 (corrected): provided the OpenRouter credential is configured
(truthy), every chat request body that does not contain a `messages` key —
including an absent or empty body — receives an error payload with HTTP
status 400, in both the Flask and the FastAPI gateway variant. -/
theorem c1_missing_messages_400 (key : Option Str) (hkey : optStrTruthy key = true) :
    (∀ data : Option ChatBody, (∀ b, data = some b → b.messages = none) →
      chat key data = .error 400 invalidRequestMsg) ∧
    (∀ b : ChatBody, b.messages = none → proxy_chat key b = .error 400 invalidRequestMsg) := by
  constructor
  · intro data hdata
    cases data with
    | none => simp [chat, hkey]
    | some b =>
      have hm := hdata b rfl
      simp [chat, hkey, hm]
  · intro b hm
    simp [proxy_chat, hkey, hm]

/-- Witness for C1 at a concrete configured key and empty body. -/
theorem c1_witness :
    chat (some (strL "k")) (some emptyBody) = .error 400 invalidRequestMsg ∧
    proxy_chat (some (strL "k")) emptyBody = .error 400 invalidRequestMsg := by
  have h := c1_missing_messages_400 (some (strL "k")) (by decide)
  exact ⟨h.1 (some emptyBody) (by intro b hb; cases hb; rfl), h.2 emptyBody rfl⟩

/-- Claim C2 (confirmed): when the OpenRouter credential is not configured,
both gateway variants return HTTP 500 with an error payload regardless of the
request body — even when `messages` is also missing. -/
theorem c2_unset_key_500 (key : Option Str) (hkey : optStrTruthy key = false) :
    (∀ data, chat key data = .error 500 serverConfigMsg) ∧
    (∀ b, proxy_chat key b = .error 500 serverConfigMsg) := by
  refine ⟨fun data => ?_, fun b => ?_⟩ <;> simp [chat, proxy_chat, hkey]

/-- Witness for C2 at an unset key and two concrete bodies. -/
theorem c2_witness :
    chat none none = .error 500 serverConfigMsg ∧
    proxy_chat none demoBody = .error 500 serverConfigMsg := by
  have h := c2_unset_key_500 none rfl
  exact ⟨h.1 none, h.2 demoBody⟩

/-- Claim C6 (confirmed): with the credential configured and `messages`
present, both variants forward a body whose `model`, `max_tokens` and
`temperature` are the request's values when present and otherwise the
defaults (`openai/gpt-4.1-mini`, 4000, 0.7), with the request's messages
passed through unchanged and a 60-second timeout. -/
theorem c6_forward_merged_defaults (key : Option Str) (b : ChatBody)
    (msgs : List ChatMessage) (hkey : optStrTruthy key = true)
    (hm : b.messages = some msgs) :
    chat key (some b) =
      .forward ⟨b.model.getD defaultModel, msgs, b.max_tokens.getD 4000,
        b.temperature.getD ((7 : ℚ)/10), 60⟩ ∧
    proxy_chat key b =
      .forward ⟨b.model.getD defaultModel, msgs, b.max_tokens.getD 4000,
        b.temperature.getD ((7 : ℚ)/10), 60⟩ := by
  have ht : bodyTruthy b = true := by simp [bodyTruthy, hm]
  constructor <;> simp [chat, proxy_chat, hkey, hm, ht]

/-- Witness for C6: a request with only `messages` gets all three defaults. -/
theorem c6_witness :
    chat (some (strL "k")) (some demoBody) =
      .forward ⟨defaultModel, [⟨strL "user", strL "hi"⟩], 4000, (7 : ℚ)/10, 60⟩ := by
  exact (c6_forward_merged_defaults (some (strL "k")) demoBody
    [⟨strL "user", strL "hi"⟩] (by decide) rfl).1

-- ---------------------------------------------------------------------------
-- Local lookup lemmas (C3, C4, C5, C7)
-- ---------------------------------------------------------------------------

theorem splitLines_ne_nil (s : Str) : splitLines s ≠ [] := by
  induction s with
  | nil => simp [splitLines]
  | cons c rest ih =>
    simp only [splitLines]
    split
    · simp
    · split <;> simp

theorem splitLines_pieces (s : Str) :
    (∀ l ∈ splitLines s, l <:+: s) ∧ (∀ l ls, splitLines s = l :: ls → l <+: s) := by
  induction s with
  | nil =>
    constructor
    · intro l hl
      simp [splitLines] at hl
      simp [hl]
    · intro l ls h
      simp [splitLines] at h
      simp [h.1]
  | cons c rest ih =>
    cases h : splitLines rest with
    | nil => exact absurd h (splitLines_ne_nil rest)
    | cons l ls =>
      by_cases hc : c = '\n'
      · have hsl : splitLines (c :: rest) = [] :: l :: ls := by
          simp [splitLines, h, hc]
        constructor
        · intro x hx
          rw [hsl] at hx
          rcases List.mem_cons.mp hx with rfl | hx
          · exact List.nil_infix
          · exact List.infix_cons (ih.1 x (h ▸ hx))
        · intro x xs hx
          rw [hsl] at hx
          injection hx with h1 h2
          subst h1
          exact List.nil_prefix
      · have hsl : splitLines (c :: rest) = (c :: l) :: ls := by
          simp [splitLines, h, hc]
        have hlpre : l <+: rest := ih.2 l ls h
        constructor
        · intro x hx
          rw [hsl] at hx
          rcases List.mem_cons.mp hx with rfl | hx
          · exact (List.cons_prefix_cons.mpr ⟨rfl, hlpre⟩).isInfix
          · exact List.infix_cons (ih.1 x (h ▸ List.mem_cons_of_mem l hx))
        · intro x xs hx
          rw [hsl] at hx
          injection hx with h1 h2
          subst h1
          exact List.cons_prefix_cons.mpr ⟨rfl, hlpre⟩

theorem lineMatch_contentMatch {kws : List Str} {d : Document} {line : Str}
    (hline : line ∈ splitLines d.content) (hm : lineMatch kws line = true) :
    contentMatch kws d = true := by
  rcases List.any_eq_true.mp hm with ⟨kw, hkw, hsub⟩
  refine List.any_eq_true.mpr ⟨kw, hkw, ?_⟩
  have h1 : kw <:+: lower line := by simpa [substr] using hsub
  have h2 : line <:+: d.content := (splitLines_pieces d.content).1 line hline
  simpa [substr, lower] using h1.trans (h2.map Char.toLower)

theorem firstMatchIdx_eq (kws : List Str) :
    ∀ (ls : List Str) (n : Nat),
      firstMatchIdx kws ls n =
        if ls.any (lineMatch kws) then some (n + ls.findIdx (lineMatch kws)) else none := by
  intro ls
  induction ls with
  | nil => intro n; simp [firstMatchIdx]
  | cons l ls ih =>
    intro n
    simp only [firstMatchIdx, List.any_cons, List.findIdx_cons]
    cases hm : lineMatch kws l with
    | true => simp [hm]
    | false =>
      rw [ih (n + 1)]
      simp only [hm, Bool.false_or, cond_false]
      by_cases hany : ls.any (lineMatch kws) = true
      · rw [if_pos hany, if_pos hany, Nat.add_assoc, Nat.add_comm 1]
        simp
      · simp [hany]

/-- The per-document lookup equals its (amended) specification. -/
theorem searchDoc_eq_spec (kws : List Str) (d : Document) :
    searchDoc kws d = searchDocSpec kws d := by
  have hfm := firstMatchIdx_eq kws (splitLines d.content) 0
  cases hc : contentMatch kws d with
  | false =>
    have hany : (splitLines d.content).any (lineMatch kws) = false := by
      by_contra hne
      rcases List.any_eq_true.mp (Bool.of_not_eq_false hne) with ⟨line, hline, hlm⟩
      exact absurd (lineMatch_contentMatch hline hlm) (by simp [hc])
    simp [searchDoc, searchDocSpec, hc, hany]
  | true =>
    cases hany : (splitLines d.content).any (lineMatch kws) with
    | false =>
      rw [hany] at hfm
      simp at hfm
      simp [searchDoc, searchDocSpec, docSnippet, hc, hany, hfm]
    | true =>
      rw [hany] at hfm
      simp at hfm
      simp [searchDoc, searchDocSpec, docSnippet, hc, hany, hfm]

/-- Claim C3, counterexample to "contributes iff a token is a substring of the
full content": the fallback token of query `"ab\ncd"` contains a newline, so
it matches the whole content but no single line, and the document contributes
no result. -/
theorem c3_counterexample :
    tokenize (strL "ab\ncd") = [strL "ab\ncd"] ∧
    contentMatch (tokenize (strL "ab\ncd")) ⟨strL "d.md", strL "ab\ncd"⟩ = true ∧
    searchDoc (tokenize (strL "ab\ncd")) ⟨strL "d.md", strL "ab\ncd"⟩ = none := by decide

/-- Claim C3 (corrected): with the query split into lowercase tokens of length
> 2 (falling back to the whole lowercase query), a document contributes a
result iff some *line*'s lowercase form contains a token, and the snippet is
the join of `lines[first-2 (clamped at 0) : first+20 (clamped at the line
count)]` around the first such line — as captured by `searchDocSpec`. -/
theorem c3_local_lookup_spec (q : Str) (d : Document) :
    searchDoc (tokenize q) d = searchDocSpec (tokenize q) d :=
  searchDoc_eq_spec (tokenize q) d

theorem localSearchGo_length_le (kws : List Str) (maxR : Nat) :
    ∀ (docs : List Document) (acc : List SearchResult),
      acc.length < maxR → (localSearchGo kws maxR docs acc).length ≤ maxR := by
  intro docs
  induction docs with
  | nil => intro acc h; simpa [localSearchGo] using Nat.le_of_lt h
  | cons d ds ih =>
    intro acc h
    simp only [localSearchGo]
    split
    · exact ih acc h
    · cases hd : docSnippet kws d with
      | none =>
        simp only [hd]
        split
        · exact Nat.le_of_lt h
        · exact ih acc h
      | some r =>
        simp only [hd]
        split
        · simpa using h
        · exact ih (acc ++ [r]) (by simp at *; omega)

/-- Claim C4 (confirmed): with `max_results` bounded 1–5, the scan stops once
`max_results` documents have been collected, so at most `max_results` results
are returned; and with `max_results = 2` over three matching documents,
exactly 2 results are returned. -/
theorem c4_max_results_bound :
    (∀ (kws : List Str) (docs : List Document) (maxR : Nat),
      1 ≤ maxR → maxR ≤ 5 → (localSearch kws docs maxR).length ≤ maxR) ∧
    demoDocs.length = 3 ∧
    (∀ d ∈ demoDocs, (searchDoc demoKeywords d).isSome = true) ∧
    (localSearch demoKeywords demoDocs 2).length = 2 := by
  refine ⟨fun kws docs maxR h1 _h5 =>
    localSearchGo_length_le kws maxR docs [] (by simpa using h1), by decide, ?_, by decide⟩
  decide

/-- Witness for C4 at the demo documents. -/
theorem c4_witness : (localSearch demoKeywords demoDocs 2).length ≤ 2 :=
  c4_max_results_bound.1 demoKeywords demoDocs 2 (by decide) (by decide)

/-- Claim C5 (confirmed): when the remote vector-search call raises (or comes
back with a non-200 status), `search_symbols_docs` does not propagate the
failure: the combined result is exactly the local keyword-search results. -/
theorem c5_remote_failure_swallowed (kws : List Str) (docs : List Document)
    (maxR code : Nat) (rdocs : List RemoteDoc) (h1 : 1 ≤ maxR) (hcode : code ≠ 200) :
    searchCombined .exn kws docs maxR = localSearch kws docs maxR ∧
    searchCombined (.status code rdocs) kws docs maxR = localSearch kws docs maxR := by
  have hb := localSearchGo_length_le kws maxR docs [] (by simpa using h1)
  constructor <;>
    simp [searchCombined, supabaseResults, hcode, List.take_of_length_le hb, localSearch]

/-- Witness for C5 at the demo fixtures, for both failure shapes. -/
theorem c5_witness :
    searchCombined .exn demoKeywords demoDocs 2 = localSearch demoKeywords demoDocs 2 ∧
    searchCombined (.status 500 []) demoKeywords demoDocs 2 =
      localSearch demoKeywords demoDocs 2 :=
  c5_remote_failure_swallowed demoKeywords demoDocs 2 500 [] (by decide) (by decide)

theorem buildRemoteResults_eq :
    ∀ (ds : List RemoteDoc) (acc : List SearchResult),
      buildRemoteResults ds acc = acc ++ ds.map mkRemoteResult := by
  intro ds
  induction ds with
  | nil => intro acc; simp [buildRemoteResults]
  | cons d ds ih => intro acc; simp [buildRemoteResults, ih]

/-- Claim C7 (confirmed): when the remote endpoint is configured and answers
200, the returned list is the remote results followed by the local
keyword-search results, truncated to at most `max_results` entries. -/
theorem c7_remote_before_local (kws : List Str) (docs : List Document)
    (maxR : Nat) (rdocs : List RemoteDoc) :
    searchCombined (.status 200 rdocs) kws docs maxR =
      ((rdocs.take maxR).map mkRemoteResult ++ localSearch kws docs maxR).take maxR := by
  simp [searchCombined, supabaseResults, buildRemoteResults_eq]

/-- Claim C9 (confirmed): `_clean_code_response` maps the fenced input
`"```javascript\ncode\n```"` to exactly `"code"`, with no leading or trailing
fence markers. -/
theorem c9_clean_fenced_block :
    _clean_code_response (strL "```javascript\ncode\n```") = strL "code" := by decide

/-- Claim C10 (confirmed): with neither the proxy URL nor the API key
configured, `_call_openrouter` returns the literal error string as an
ordinary value, and every generation tool returns that text (after
fence-cleaning or JSON post-processing where applied) as its normal string
output. -/
theorem c10_missing_credentials (proxyUrl apiKey : Option Str) (upstream : Str)
    (hp : optStrTruthy proxyUrl = false) (hk : optStrTruthy apiKey = false) :
    _call_openrouter proxyUrl apiKey upstream = openrouterErrorMsg ∧
    generate_component_result proxyUrl apiKey upstream = openrouterErrorMsg ∧
    generate_page_result proxyUrl apiKey upstream = openrouterErrorMsg ∧
    convert_to_symbols_result proxyUrl apiKey upstream = openrouterErrorMsg ∧
    generate_project_result proxyUrl apiKey upstream = openrouterErrorMsg ∧
    create_design_system_result proxyUrl apiKey upstream = openrouterErrorMsg ∧
    explain_symbols_concept_result proxyUrl apiKey upstream = openrouterErrorMsg ∧
    review_symbols_code_result proxyUrl apiKey upstream = openrouterErrorMsg := by
  have hcall : _call_openrouter proxyUrl apiKey upstream = openrouterErrorMsg := by
    simp [_call_openrouter, callRoute, hp, hk]
  have hclean : _clean_code_response openrouterErrorMsg = openrouterErrorMsg := by decide
  have hjson : jsonPostProcess openrouterErrorMsg = openrouterErrorMsg := by decide
  exact ⟨hcall,
    by simp [generate_component_result, hcall, hclean],
    by simp [generate_page_result, hcall, hclean],
    by simp [convert_to_symbols_result, hcall, hclean],
    by simp [generate_project_result, hcall, hclean, hjson],
    by simp [create_design_system_result, hcall, hclean, hjson],
    by simp [explain_symbols_concept_result, hcall],
    by simp [review_symbols_code_result, hcall]⟩

/-- Witness for C10 with both environment values absent. -/
theorem c10_witness :
    _call_openrouter none none (strL "ignored") = openrouterErrorMsg ∧
    generate_project_result none none (strL "ignored") = openrouterErrorMsg := by
  have h := c10_missing_credentials none none (strL "ignored") rfl rfl
  exact ⟨h.1, h.2.2.2.2.1⟩


-- ---------------------------------------------------------------------------
-- JSON round-trip lemmas (C8): numbers
-- ---------------------------------------------------------------------------

theorem charDigit_digitChar : ∀ d, d < 10 → charDigit (Char.ofNat (48 + d)) = some d := by
  decide

theorem readDigitsAux_noDigit (s : Str) (acc : Nat) (h : noDigitHead s = true) :
    readDigitsAux s acc = (acc, s) := by
  cases s with
  | nil => rfl
  | cons c cs =>
    simp only [noDigitHead, Option.isNone_iff_eq_none] at h
    simp [readDigitsAux, h]

theorem natDigitsGo_succ (f n : Nat) :
    natDigitsGo (f + 1) n =
      if n < 10 then [Char.ofNat (48 + n)]
      else natDigitsGo f (n / 10) ++ [Char.ofNat (48 + n % 10)] := rfl

theorem readDigitsAux_digits :
    ∀ (f n acc : Nat) (rest : Str), n ≤ f →
      readDigitsAux (natDigitsGo (f + 1) n ++ rest) acc =
        readDigitsAux rest (acc * 10 ^ (natDigitsGo (f + 1) n).length + n) := by
  intro f
  induction f with
  | zero =>
    intro n acc rest hn
    have hn0 : n = 0 := Nat.le_zero.mp hn
    subst hn0
    have hc : charDigit (Char.ofNat (48 + 0)) = some 0 := charDigit_digitChar 0 (by omega)
    simp [natDigitsGo, readDigitsAux, hc]
  | succ f ih =>
    intro n acc rest hn
    by_cases h10 : n < 10
    · have hc := charDigit_digitChar n h10
      simp [natDigitsGo_succ, if_pos h10, readDigitsAux, hc]
    · rw [natDigitsGo_succ, if_neg h10]
      rw [List.append_assoc, ih (n / 10) acc _ (by omega)]
      have hc := charDigit_digitChar (n % 10) (by omega)
      simp only [List.singleton_append, readDigitsAux, hc]
      congr 1
      simp only [List.length_append, List.length_cons, List.length_nil]
      rw [pow_succ, ← Nat.mul_assoc]
      generalize acc * 10 ^ (natDigitsGo (f + 1) (n / 10)).length = B
      omega

theorem natDigitsGo_head :
    ∀ (f n : Nat), n ≤ f + 1 →
      ∃ d cs, natDigitsGo (f + 1) n = Char.ofNat (48 + d) :: cs ∧ d < 10 ∧ (1 ≤ n → 1 ≤ d) := by
  intro f
  induction f with
  | zero =>
    intro n hn
    have h10 : n < 10 := by omega
    exact ⟨n, [], by simp [natDigitsGo, if_pos h10], h10, fun h => h⟩
  | succ f ih =>
    intro n hn
    by_cases h10 : n < 10
    · exact ⟨n, [], by simp [natDigitsGo, if_pos h10], h10, fun h => h⟩
    · obtain ⟨d, cs, hEq, hd, hpos⟩ := ih (n / 10) (by omega)
      refine ⟨d, cs ++ [Char.ofNat (48 + n % 10)], ?_, hd, fun _ => hpos (by omega)⟩
      rw [natDigitsGo_succ, if_neg h10, hEq]
      simp

theorem parseNatTok_digits (n : Nat) (rest : Str) (hnd : noDigitHead rest = true) :
    parseNatTok (natDigits n ++ rest) = some (n, rest) := by
  by_cases hn0 : n = 0
  · subst hn0
    have hc : charDigit (Char.ofNat (48 + 0)) = some 0 := charDigit_digitChar 0 (by omega)
    simp [natDigits, natDigitsGo, parseNatTok, hc]
  · obtain ⟨d, cs, hEq, hd, hpos⟩ := natDigitsGo_head n n (by omega)
    have hd1 : 1 ≤ d := hpos (by omega)
    have hRDA := readDigitsAux_digits n n 0 rest (Nat.le_refl n)
    rw [readDigitsAux_noDigit rest _ hnd] at hRDA
    simp only [Nat.zero_mul, Nat.zero_add] at hRDA
    have hcd := charDigit_digitChar d hd
    rw [hEq, List.cons_append, readDigitsAux, hcd] at hRDA
    simp only [Nat.zero_mul, Nat.zero_add] at hRDA
    show parseNatTok (natDigitsGo (n + 1) n ++ rest) = some (n, rest)
    rw [hEq, List.cons_append]
    simp only [parseNatTok, hcd]
    rw [if_neg (by omega)]
    rw [hRDA]

theorem digitChar_ne_minus : ∀ d, d < 10 → (Char.ofNat (48 + d) = '-') = false := by decide

theorem parseIntTok_print (n : Int) (rest : Str) (hnd : noDigitHead rest = true) :
    parseIntTok (printInt n ++ rest) = some (n, rest) := by
  by_cases hneg : n < 0
  · simp only [printInt, if_pos hneg, List.cons_append, parseIntTok]
    rw [if_true, parseNatTok_digits n.natAbs rest hnd]
    simp only [Option.some.injEq, Prod.mk.injEq]
    exact ⟨by omega, trivial⟩
  · simp only [printInt, if_neg hneg]
    obtain ⟨d, cs, hEq, hd, _⟩ := natDigitsGo_head n.natAbs n.natAbs (by omega)
    have hsplit : natDigits n.natAbs ++ rest = Char.ofNat (48 + d) :: (cs ++ rest) := by
      simp [natDigits, hEq]
    rw [hsplit]
    simp only [parseIntTok]
    rw [if_neg (by simpa using digitChar_ne_minus d hd)]
    rw [← hsplit, parseNatTok_digits n.natAbs rest hnd]
    simp only [Option.some.injEq, Prod.mk.injEq]
    exact ⟨by omega, trivial⟩

-- ---------------------------------------------------------------------------
-- JSON round-trip lemmas (C8): strings
-- ---------------------------------------------------------------------------

theorem char_toNat_facts (c : Char) :
    c.toNat < 1114112 ∧ ¬(55296 ≤ c.toNat ∧ c.toNat < 57344) := by
  have he : c.toNat = c.val.toNat := rfl
  have h := c.valid
  rcases h with h | h
  · exact ⟨by omega, by omega⟩
  · exact ⟨by omega, by omega⟩

theorem charHexVal_hexDigitChar : ∀ m, m < 16 → charHexVal (hexDigitChar m) = some m := by
  decide

theorem parseHex4_print (m : Nat) (hm : m < 65536) (T : Str) :
    parseHex4 (hex4 m ++ T) = some (m, T) := by
  have ha := charHexVal_hexDigitChar (m / 4096 % 16) (by omega)
  have hb := charHexVal_hexDigitChar (m / 256 % 16) (by omega)
  have hc := charHexVal_hexDigitChar (m / 16 % 16) (by omega)
  have hd := charHexVal_hexDigitChar (m % 16) (by omega)
  simp only [hex4, List.cons_append, List.nil_append, parseHex4, ha, hb, hc, hd]
  have harith : ((m / 4096 % 16 * 16 + m / 256 % 16) * 16 + m / 16 % 16) * 16 + m % 16 = m := by
    omega
  rw [harith]

theorem parseStrChars_u (g : Nat) (r : Str) :
    parseStrChars (g + 1) ('\\' :: 'u' :: r) =
      (match parseHex4 r with
       | none => none
       | some (u, rest3) =>
         if 55296 ≤ u ∧ u < 56320 then
           match rest3 with
           | bs :: uc :: rest4 =>
             if bs = '\\' then
               if uc = 'u' then
                 match parseHex4 rest4 with
                 | none => none
                 | some (u2, rest5) =>
                   if 56320 ≤ u2 ∧ u2 < 57344 then
                     match parseStrChars g rest5 with
                     | some (s1, r1) =>
                       some (Char.ofNat (65536 + (u - 55296) * 1024 + (u2 - 56320)) :: s1, r1)
                     | none => none
                   else none
               else none
             else none
           | _ => none
         else if 56320 ≤ u ∧ u < 57344 then none
         else
           match parseStrChars g rest3 with
           | some (s1, r1) => some (Char.ofNat u :: s1, r1)
           | none => none) := rfl

theorem parseStrChars_print : ∀ (s : Str) (fuel : Nat) (rest : Str), s.length < fuel →
    parseStrChars fuel (escapeStr s ++ '"' :: rest) = some (s, rest) := by
  intro s
  induction s with
  | nil =>
    intro fuel rest h
    cases fuel with
    | zero => simp at h
    | succ g => rfl
  | cons c s ih =>
    intro fuel rest h
    cases fuel with
    | zero => simp at h
    | succ g =>
    have hlen : s.length < g := by simp at h; omega
    have ihT := ih g rest hlen
    have hE : escapeStr (c :: s) = escChar c ++ escapeStr s := by simp [escapeStr]
    rw [hE, List.append_assoc]
    by_cases h1 : c = '\\'
    · have hesc : escChar c = ['\\', '\\'] := by rw [h1]; decide
      rw [hesc, h1]
      simp [parseStrChars, escDecode, ihT]
    · by_cases h2 : c = '"'
      · have hesc : escChar c = ['\\', '"'] := by rw [h2]; decide
        rw [hesc, h2]
        simp [parseStrChars, escDecode, ihT]
      · by_cases h3 : c = Char.ofNat 8
        · have hesc : escChar c = ['\\', 'b'] := by rw [h3]; decide
          rw [hesc, h3]
          simp [parseStrChars, escDecode, ihT]
        · by_cases h4 : c = Char.ofNat 12
          · have hesc : escChar c = ['\\', 'f'] := by rw [h4]; decide
            rw [hesc, h4]
            simp [parseStrChars, escDecode, ihT]
          · by_cases h5 : c = '\n'
            · have hesc : escChar c = ['\\', 'n'] := by rw [h5]; decide
              rw [hesc, h5]
              simp [parseStrChars, escDecode, ihT]
            · by_cases h6 : c = '\r'
              · have hesc : escChar c = ['\\', 'r'] := by rw [h6]; decide
                rw [hesc, h6]
                simp [parseStrChars, escDecode, ihT]
              · by_cases h7 : c = '\t'
                · have hesc : escChar c = ['\\', 't'] := by rw [h7]; decide
                  rw [hesc, h7]
                  simp [parseStrChars, escDecode, ihT]
                · by_cases h8 : c.toNat < 32 ∨ 126 < c.toNat
                  · have hval := char_toNat_facts c
                    by_cases h9 : c.toNat < 65536
                    · have hesc : escChar c = '\\' :: 'u' :: hex4 c.toNat := by
                        simp only [escChar]
                        rw [if_neg h1, if_neg h2, if_neg h3, if_neg h4, if_neg h5, if_neg h6,
                          if_neg h7, if_pos h8, if_pos h9]
                      rw [hesc]
                      simp only [List.cons_append]
                      rw [parseStrChars_u]
                      rw [parseHex4_print c.toNat (by omega) _]
                      simp only [reduceIte]
                      rw [if_neg (show ¬(55296 ≤ c.toNat ∧ c.toNat < 56320) by omega),
                        if_neg (show ¬(56320 ≤ c.toNat ∧ c.toNat < 57344) by omega), ihT]
                      simp
                    · have hesc : escChar c =
                          ('\\' :: 'u' :: hex4 (55296 + (c.toNat - 65536) / 1024)) ++
                          ('\\' :: 'u' :: hex4 (56320 + (c.toNat - 65536) % 1024)) := by
                        simp only [escChar]
                        rw [if_neg h1, if_neg h2, if_neg h3, if_neg h4, if_neg h5, if_neg h6,
                          if_neg h7, if_pos h8, if_neg h9]
                      rw [hesc]
                      simp only [List.cons_append, List.append_assoc]
                      rw [parseStrChars_u]
                      rw [parseHex4_print (55296 + (c.toNat - 65536) / 1024) (by omega) _]
                      simp only [reduceIte]
                      rw [if_pos (show 55296 ≤ 55296 + (c.toNat - 65536) / 1024 ∧
                        55296 + (c.toNat - 65536) / 1024 < 56320 by omega)]
                      rw [parseHex4_print (56320 + (c.toNat - 65536) % 1024) (by omega) _]
                      simp only [reduceIte]
                      rw [if_pos (show 56320 ≤ 56320 + (c.toNat - 65536) % 1024 ∧
                        56320 + (c.toNat - 65536) % 1024 < 57344 by omega)]
                      rw [ihT]
                      simp only [reduceIte, Option.some.injEq, Prod.mk.injEq, List.cons.injEq,
                        and_true, true_and]
                      have harg : 65536 + (55296 + (c.toNat - 65536) / 1024 - 55296) * 1024 +
                          (56320 + (c.toNat - 65536) % 1024 - 56320) = c.toNat := by omega
                      rw [harg, Char.ofNat_toNat]
                  · have hesc : escChar c = [c] := by
                      simp only [escChar]
                      rw [if_neg h1, if_neg h2, if_neg h3, if_neg h4, if_neg h5, if_neg h6,
                        if_neg h7, if_neg h8]
                    rw [hesc]
                    have h32 : ¬ c.toNat < 32 := by omega
                    simp [parseStrChars, h1, h2, h32, ihT]

-- ---------------------------------------------------------------------------
-- JSON round-trip lemmas (C8): whitespace and token dispatch
-- ---------------------------------------------------------------------------

theorem skipWs_cons_not (c : Char) (s : Str) (h : isJsonWs c = false) :
    skipWs (c :: s) = c :: s := by
  simp [skipWs, List.dropWhile_cons, h]

theorem skipWs_append_ws : ∀ (a b : Str), (∀ c ∈ a, isJsonWs c = true) →
    skipWs (a ++ b) = skipWs b := by
  intro a
  induction a with
  | nil => intro b _; rfl
  | cons c a ih =>
    intro b h
    have hc := h c (by simp)
    simp only [List.cons_append, skipWs, List.dropWhile_cons, hc, if_true]
    exact ih b (fun x hx => h x (List.mem_cons_of_mem c hx))

theorem spacesN_ws (n : Nat) : ∀ c ∈ spacesN n, isJsonWs c = true := by
  intro c hc
  simp only [spacesN] at hc
  have := List.eq_of_mem_replicate hc
  subst this
  decide

theorem parseVal_ws (fuel : Nat) (a b : Str) (h : ∀ c ∈ a, isJsonWs c = true) :
    parseVal fuel (a ++ b) = parseVal fuel b := by
  cases fuel with
  | zero => rfl
  | succ f =>
    simp only [parseVal]
    rw [skipWs_append_ws a b h]

theorem parseArrItems_ws (fuel : Nat) (a b : Str) (h : ∀ c ∈ a, isJsonWs c = true) :
    parseArrItems fuel (a ++ b) = parseArrItems fuel b := by
  cases fuel with
  | zero => rfl
  | succ f =>
    simp only [parseArrItems]
    rw [parseVal_ws f a b h]

theorem parseObjItems_ws (fuel : Nat) (a b : Str) (h : ∀ c ∈ a, isJsonWs c = true) :
    parseObjItems fuel (a ++ b) = parseObjItems fuel b := by
  cases fuel with
  | zero => rfl
  | succ f =>
    simp only [parseObjItems]
    rw [skipWs_append_ws a b h]

theorem parseVal_null (f : Nat) (rest : Str) :
    parseVal (f + 1) ('n' :: 'u' :: 'l' :: 'l' :: rest) = some (.jnull, rest) := rfl

theorem parseVal_true (f : Nat) (rest : Str) :
    parseVal (f + 1) ('t' :: 'r' :: 'u' :: 'e' :: rest) = some (.jbool true, rest) := rfl

theorem parseVal_false (f : Nat) (rest : Str) :
    parseVal (f + 1) ('f' :: 'a' :: 'l' :: 's' :: 'e' :: rest) = some (.jbool false, rest) := rfl

theorem parseVal_quote (f : Nat) (rest : Str) :
    parseVal (f + 1) ('"' :: rest) =
      (match parseStrChars (rest.length + 1) rest with
       | some (str, r2) => some (.jstr str, r2)
       | none => none) := rfl

theorem parseVal_lbracket (f : Nat) (rest : Str) :
    parseVal (f + 1) ('[' :: rest) =
      (match parseArrElems f rest with
       | some (xs, r2) => some (.jarr xs, r2)
       | none => none) := rfl

theorem parseVal_lbrace (f : Nat) (rest : Str) :
    parseVal (f + 1) ('\x7b' :: rest) =
      (match parseObjEntries f rest with
       | some (kvs, r2) => some (.jobj kvs, r2)
       | none => none) := rfl

theorem parseArrElems_succ (f : Nat) (s : Str) :
    parseArrElems (f + 1) s =
      (match skipWs s with
       | c :: r => if c = ']' then some (.anil, r) else parseArrItems f s
       | [] => parseArrItems f s) := rfl

theorem arrElems_not_bracket (f : Nat) (s : Str) (c : Char) (cs : Str)
    (hskip : skipWs s = c :: cs) (hc : (c = ']') = false) :
    parseArrElems (f + 1) s = parseArrItems f s := by
  rw [parseArrElems_succ, hskip]
  simp [hc]


theorem parseObjEntries_succ (f : Nat) (s : Str) :
    parseObjEntries (f + 1) s =
      (match skipWs s with
       | c :: r => if c = '\x7d' then some (.onil, r) else parseObjItems f s
       | [] => none) := rfl

theorem parseArrItems_succ (f : Nat) (s : Str) :
    parseArrItems (f + 1) s =
      (match parseVal f s with
       | none => none
       | some (v, r1) =>
         match skipWs r1 with
         | ',' :: r2 =>
           match parseArrItems f r2 with
           | some (xs, r3) => some (.acons v xs, r3)
           | none => none
         | ']' :: r2 => some (.acons v .anil, r2)
         | _ => none) := rfl

theorem parseObjItems_succ (f : Nat) (s : Str) :
    parseObjItems (f + 1) s =
      (match skipWs s with
       | '"' :: r =>
         match parseStrChars (r.length + 1) r with
         | none => none
         | some (k, r1) =>
           match skipWs r1 with
           | ':' :: r2 =>
             match parseVal f r2 with
             | none => none
             | some (v, r3) =>
               match skipWs r3 with
               | ',' :: r4 =>
                 match parseObjItems f r4 with
                 | some (kvs, r5) => some (.ocons k v kvs, r5)
                 | none => none
               | c :: r4 => if c = '\x7d' then some (.ocons k v .onil, r4) else none
               | [] => none
           | _ => none
       | _ => none) := rfl

theorem digitChar_head_facts : ∀ d, d < 10 →
    isJsonWs (Char.ofNat (48 + d)) = false ∧ ((Char.ofNat (48 + d)) = 'n') = false ∧
    ((Char.ofNat (48 + d)) = 't') = false ∧ ((Char.ofNat (48 + d)) = 'f') = false ∧
    ((Char.ofNat (48 + d)) = '"') = false ∧ ((Char.ofNat (48 + d)) = '[') = false ∧
    ((Char.ofNat (48 + d)) = '\x7b') = false ∧ ((Char.ofNat (48 + d)) = ']') = false ∧
    ((Char.ofNat (48 + d)) = '\x7d') = false := by
  decide

theorem parseVal_num (f : Nat) (c : Char) (r : Str)
    (hws : isJsonWs c = false) (hn : (c = 'n') = false) (ht : (c = 't') = false)
    (hf : (c = 'f') = false) (hq : (c = '"') = false) (hb : (c = '[') = false)
    (hbr : (c = '\x7b') = false) :
    parseVal (f + 1) (c :: r) =
      (match parseIntTok (c :: r) with
       | some (n, r2) => some (.jint n, r2)
       | none => none) := by
  simp only [parseVal, skipWs, List.dropWhile_cons, hws, Bool.false_eq_true, if_false]
  simp [hn, ht, hf, hq, hb, hbr]

theorem objEntries_not_brace (f : Nat) (s : Str) (c : Char) (cs : Str)
    (hskip : skipWs s = c :: cs) (hc : (c = '\x7d') = false) :
    parseObjEntries (f + 1) s = parseObjItems f s := by
  rw [parseObjEntries_succ, hskip]
  simp [hc]

theorem minus_head_facts :
    isJsonWs '-' = false ∧ (('-' : Char) = 'n') = false ∧ (('-' : Char) = 't') = false ∧
    (('-' : Char) = 'f') = false ∧ (('-' : Char) = '"') = false ∧
    (('-' : Char) = '[') = false ∧ (('-' : Char) = '\x7b') = false ∧
    (('-' : Char) = ']') = false ∧ (('-' : Char) = '\x7d') = false := by
  decide

theorem printVal_head (ind : Nat) (v : JVal) :
    ∃ c cs, printVal ind v = c :: cs ∧ isJsonWs c = false ∧ (c = ']') = false ∧
      (c = '\x7d') = false := by
  cases v with
  | jnull => exact ⟨'n', _, rfl, by decide, by decide, by decide⟩
  | jbool b => cases b <;> exact ⟨_, _, rfl, by decide, by decide, by decide⟩
  | jint n =>
    by_cases hn : n < 0
    · refine ⟨'-', natDigits n.natAbs, ?_, by decide, by decide, by decide⟩
      simp [printVal, printInt, if_pos hn]
    · obtain ⟨d, cs, hEq, hd, _⟩ := natDigitsGo_head n.natAbs n.natAbs (by omega)
      obtain ⟨w1, _, _, _, _, _, _, w8, w9⟩ := digitChar_head_facts d hd
      refine ⟨Char.ofNat (48 + d), cs, ?_, w1, w8, w9⟩
      simp [printVal, printInt, if_neg hn, natDigits, hEq]
  | jstr s => exact ⟨'"', _, rfl, by decide, by decide, by decide⟩
  | jarr xs => cases xs <;> exact ⟨'[', _, rfl, by decide, by decide, by decide⟩
  | jobj kvs => cases kvs <;> exact ⟨'\x7b', _, rfl, by decide, by decide, by decide⟩

theorem noDigitHead_comma (X : Str) : noDigitHead (',' :: X) = true := rfl

theorem noDigitHead_nl (X : Str) : noDigitHead ('\n' :: X) = true := rfl

theorem printVal_jarr_cons (ind : Nat) (v : JVal) (xs : JArr) :
    printVal ind (.jarr (.acons v xs)) =
      '[' :: '\n' ::
        (printItems (ind + 1) (.acons v xs) ++ '\n' :: (spacesN (2 * ind) ++ [']'])) := rfl

theorem printVal_jobj_cons (ind : Nat) (k : Str) (v : JVal) (kvs : JObj) :
    printVal ind (.jobj (.ocons k v kvs)) =
      '\x7b' :: '\n' ::
        (printEntries (ind + 1) (.ocons k v kvs) ++ '\n' :: (spacesN (2 * ind) ++ ['\x7d'])) := rfl

theorem printItems_one (ind : Nat) (v : JVal) :
    printItems ind (.acons v .anil) = spacesN (2 * ind) ++ printVal ind v := by
  show spacesN (2 * ind) ++ printVal ind v ++ [] = _
  simp

theorem printItems_more (ind : Nat) (v w : JVal) (ys : JArr) :
    printItems ind (.acons v (.acons w ys)) =
      spacesN (2 * ind) ++ (printVal ind v ++ (',' :: '\n' :: printItems ind (.acons w ys))) := by
  show spacesN (2 * ind) ++ printVal ind v ++ (',' :: '\n' :: printItems ind (.acons w ys)) = _
  simp

theorem printEntries_one (ind : Nat) (k : Str) (v : JVal) :
    printEntries ind (.ocons k v .onil) =
      spacesN (2 * ind) ++ (printStr k ++ ':' :: ' ' :: printVal ind v) := by
  simp [printEntries]

theorem printEntries_more (ind : Nat) (k : Str) (v : JVal) (k2 : Str) (v2 : JVal) (rest : JObj) :
    printEntries ind (.ocons k v (.ocons k2 v2 rest)) =
      spacesN (2 * ind) ++ (printStr k ++ ':' :: ' ' ::
        (printVal ind v ++ (',' :: '\n' :: printEntries ind (.ocons k2 v2 rest)))) := by
  simp [printEntries]

-- ---------------------------------------------------------------------------
-- JSON round-trip (C8): main induction
-- ---------------------------------------------------------------------------

theorem sizeV_pos (v : JVal) : 1 ≤ sizeV v := by
  cases v <;> simp [sizeV] <;> omega

theorem escChar_length_pos (c : Char) : 1 ≤ (escChar c).length := by
  unfold escChar
  split_ifs <;> simp [hex4]

theorem escapeStr_length (s : Str) : s.length ≤ (escapeStr s).length := by
  induction s with
  | nil => simp [escapeStr]
  | cons c s ih =>
    have h1 := escChar_length_pos c
    simp only [escapeStr, List.map_cons, List.flatten_cons, List.length_append,
      List.length_cons] at ih ⊢
    omega

theorem nl_spaces_ws (m : Nat) : ∀ c ∈ '\n' :: spacesN m, isJsonWs c = true := by
  intro c hc
  rcases List.mem_cons.mp hc with rfl | hc
  · decide
  · exact spacesN_ws m c hc

set_option maxHeartbeats 1000000 in
theorem parse_print (fuel : Nat) :
    (∀ (v : JVal) (ind : Nat) (rest : Str), sizeV v ≤ fuel → noDigitHead rest = true →
      parseVal fuel (printVal ind v ++ rest) = some (v, rest)) ∧
    (∀ (v : JVal) (ys : JArr) (ind m : Nat) (rest : Str), sizeA (.acons v ys) ≤ fuel →
      parseArrItems fuel
        (printItems ind (.acons v ys) ++ '\n' :: (spacesN m ++ ']' :: rest)) =
        some (.acons v ys, rest)) ∧
    (∀ (k : Str) (v : JVal) (kvs : JObj) (ind m : Nat) (rest : Str),
      sizeO (.ocons k v kvs) ≤ fuel →
      parseObjItems fuel
        (printEntries ind (.ocons k v kvs) ++ '\n' :: (spacesN m ++ '\x7d' :: rest)) =
        some (.ocons k v kvs, rest)) := by
  induction fuel using Nat.strong_induction_on with
  | _ fuel IH =>
  refine ⟨?_, ?_, ?_⟩
  · -- values
    intro v ind rest hsz hnd
    obtain ⟨f, rfl⟩ : ∃ f, fuel = f + 1 := ⟨fuel - 1, by have := sizeV_pos v; omega⟩
    cases v with
    | jnull =>
      rw [show printVal ind .jnull ++ rest = 'n' :: 'u' :: 'l' :: 'l' :: rest from rfl,
        parseVal_null]
    | jbool b =>
      cases b with
      | true =>
        rw [show printVal ind (.jbool true) ++ rest = 't' :: 'r' :: 'u' :: 'e' :: rest from rfl,
          parseVal_true]
      | false =>
        rw [show printVal ind (.jbool false) ++ rest =
          'f' :: 'a' :: 'l' :: 's' :: 'e' :: rest from rfl, parseVal_false]
    | jint n =>
      by_cases hn : n < 0
      · have hp : printVal ind (.jint n) ++ rest = '-' :: (natDigits n.natAbs ++ rest) := by
          simp [printVal, printInt, if_pos hn]
        rw [hp]
        obtain ⟨w1, w2, w3, w4, w5, w6, w7, _, _⟩ := minus_head_facts
        rw [parseVal_num f '-' _ w1 w2 w3 w4 w5 w6 w7]
        have hback : '-' :: (natDigits n.natAbs ++ rest) = printInt n ++ rest := by
          simp [printInt, if_pos hn]
        rw [hback, parseIntTok_print n rest hnd]
      · obtain ⟨d, cs, hEq, hdlt, _⟩ := natDigitsGo_head n.natAbs n.natAbs (by omega)
        have hp : printVal ind (.jint n) ++ rest = Char.ofNat (48 + d) :: (cs ++ rest) := by
          simp [printVal, printInt, if_neg hn, natDigits, hEq]
        rw [hp]
        obtain ⟨w1, w2, w3, w4, w5, w6, w7, _, _⟩ := digitChar_head_facts d hdlt
        rw [parseVal_num f _ _ w1 w2 w3 w4 w5 w6 w7]
        have hback : Char.ofNat (48 + d) :: (cs ++ rest) = printInt n ++ rest := by
          simp [printInt, if_neg hn, natDigits, hEq]
        rw [hback, parseIntTok_print n rest hnd]
    | jstr s =>
      have hp : printVal ind (.jstr s) ++ rest = '"' :: (escapeStr s ++ '"' :: rest) := by
        simp [printVal, printStr]
      rw [hp, parseVal_quote]
      have hfl : s.length < (escapeStr s ++ '"' :: rest).length + 1 := by
        have := escapeStr_length s
        simp only [List.length_append, List.length_cons]
        omega
      rw [parseStrChars_print s _ rest hfl]
    | jarr xs =>
      cases xs with
      | anil =>
        rw [show printVal ind (.jarr .anil) ++ rest = '[' :: ']' :: rest from rfl,
          parseVal_lbracket]
        obtain ⟨g, rfl⟩ : ∃ g, f = g + 1 := ⟨f - 1, by simp [sizeV] at hsz; omega⟩
        rw [parseArrElems_succ, skipWs_cons_not ']' rest (by decide)]
        simp
      | acons v ys =>
        rw [printVal_jarr_cons]
        simp only [List.cons_append, List.append_assoc, List.singleton_append, List.nil_append]
        rw [parseVal_lbracket]
        obtain ⟨g, rfl⟩ : ∃ g, f = g + 1 :=
          ⟨f - 1, by have := sizeV_pos v; simp [sizeV, sizeA] at hsz; omega⟩
        obtain ⟨c0, cs0, hpv, hws0, hbr0, _⟩ := printVal_head (ind + 1) v
        have hitems : ∃ T, printItems (ind + 1) (.acons v ys) =
            spacesN (2 * (ind + 1)) ++ (printVal (ind + 1) v ++ T) := by
          cases ys with
          | anil => exact ⟨[], by rw [printItems_one]; simp⟩
          | acons w zs => exact ⟨',' :: '\n' :: printItems (ind + 1) (.acons w zs),
              by rw [printItems_more]⟩
        obtain ⟨T, hT⟩ := hitems
        have hskip : skipWs ('\n' :: (printItems (ind + 1) (.acons v ys) ++
            '\n' :: (spacesN (2 * ind) ++ ']' :: rest))) =
            c0 :: (cs0 ++ (T ++ '\n' :: (spacesN (2 * ind) ++ ']' :: rest))) := by
          rw [hT]
          have hsh : '\n' :: ((spacesN (2 * (ind + 1)) ++ (printVal (ind + 1) v ++ T)) ++
              '\n' :: (spacesN (2 * ind) ++ ']' :: rest)) =
              ('\n' :: spacesN (2 * (ind + 1))) ++ ((printVal (ind + 1) v) ++
                (T ++ '\n' :: (spacesN (2 * ind) ++ ']' :: rest))) := by
            simp
          rw [hsh, skipWs_append_ws _ _ (nl_spaces_ws _), hpv, List.cons_append,
            skipWs_cons_not c0 _ hws0]
        rw [arrElems_not_bracket g _ c0 _ hskip hbr0]
        have hsh2 : '\n' :: (printItems (ind + 1) (.acons v ys) ++
            '\n' :: (spacesN (2 * ind) ++ ']' :: rest)) =
            ['\n'] ++ (printItems (ind + 1) (.acons v ys) ++
              '\n' :: (spacesN (2 * ind) ++ ']' :: rest)) := rfl
        rw [hsh2, parseArrItems_ws g ['\n'] _
          (by intro c hc; simp at hc; subst hc; decide)]
        have harr := (IH g (by omega)).2.1 v ys (ind + 1) (2 * ind) rest
          (by simp [sizeV] at hsz; omega)
        rw [harr]
    | jobj kvs =>
      cases kvs with
      | onil =>
        rw [show printVal ind (.jobj .onil) ++ rest = '\x7b' :: '\x7d' :: rest from rfl,
          parseVal_lbrace]
        obtain ⟨g, rfl⟩ : ∃ g, f = g + 1 := ⟨f - 1, by simp [sizeV] at hsz; omega⟩
        rw [parseObjEntries_succ, skipWs_cons_not '\x7d' rest (by decide)]
        simp
      | ocons k v tl =>
        rw [printVal_jobj_cons]
        simp only [List.cons_append, List.append_assoc, List.singleton_append, List.nil_append]
        rw [parseVal_lbrace]
        obtain ⟨g, rfl⟩ : ∃ g, f = g + 1 :=
          ⟨f - 1, by have := sizeV_pos v; simp [sizeV, sizeO] at hsz; omega⟩
        have hentries : ∃ T, printEntries (ind + 1) (.ocons k v tl) =
            spacesN (2 * (ind + 1)) ++ (printStr k ++ (':' :: ' ' :: (printVal (ind + 1) v ++ T))) := by
          cases tl with
          | onil => exact ⟨[], by rw [printEntries_one]; simp⟩
          | ocons k2 v2 tl2 => exact ⟨',' :: '\n' :: printEntries (ind + 1) (.ocons k2 v2 tl2),
              by rw [printEntries_more]⟩
        obtain ⟨T, hT⟩ := hentries
        have hskip : skipWs ('\n' :: (printEntries (ind + 1) (.ocons k v tl) ++
            '\n' :: (spacesN (2 * ind) ++ '\x7d' :: rest))) =
            '"' :: (escapeStr k ++ '"' ::
              (':' :: ' ' :: (printVal (ind + 1) v ++ T) ++
                '\n' :: (spacesN (2 * ind) ++ '\x7d' :: rest))) := by
          rw [hT]
          have hsh : '\n' :: ((spacesN (2 * (ind + 1)) ++
              (printStr k ++ (':' :: ' ' :: (printVal (ind + 1) v ++ T)))) ++
              '\n' :: (spacesN (2 * ind) ++ '\x7d' :: rest)) =
              ('\n' :: spacesN (2 * (ind + 1))) ++
                ('"' :: (escapeStr k ++ '"' ::
                  (':' :: ' ' :: (printVal (ind + 1) v ++ T) ++
                    '\n' :: (spacesN (2 * ind) ++ '\x7d' :: rest)))) := by
            simp [printStr]
          rw [hsh, skipWs_append_ws _ _ (nl_spaces_ws _),
            skipWs_cons_not '"' _ (by decide)]
        rw [objEntries_not_brace g _ '"' _ hskip (by decide)]
        have hsh2 : '\n' :: (printEntries (ind + 1) (.ocons k v tl) ++
            '\n' :: (spacesN (2 * ind) ++ '\x7d' :: rest)) =
            ['\n'] ++ (printEntries (ind + 1) (.ocons k v tl) ++
              '\n' :: (spacesN (2 * ind) ++ '\x7d' :: rest)) := rfl
        rw [hsh2, parseObjItems_ws g ['\n'] _
          (by intro c hc; simp at hc; subst hc; decide)]
        have hobj := (IH g (by omega)).2.2 k v tl (ind + 1) (2 * ind) rest
          (by simp [sizeV] at hsz; omega)
        rw [hobj]
  · -- array items
    intro v ys ind m rest hsz
    obtain ⟨g, rfl⟩ : ∃ g, fuel = g + 1 :=
      ⟨fuel - 1, by have := sizeV_pos v; simp [sizeA] at hsz; omega⟩
    rw [parseArrItems_succ]
    cases ys with
    | anil =>
      rw [printItems_one]
      simp only [List.append_assoc]
      rw [parseVal_ws g (spacesN (2 * ind)) _ (spacesN_ws _)]
      have hpv := (IH g (by omega)).1 v ind ('\n' :: (spacesN m ++ ']' :: rest))
        (by simp [sizeA] at hsz; omega) (noDigitHead_nl _)
      rw [hpv]
      simp only []
      have hskip : skipWs ('\n' :: (spacesN m ++ ']' :: rest)) = ']' :: rest := by
        have hsh : '\n' :: (spacesN m ++ ']' :: rest) =
            ('\n' :: spacesN m) ++ (']' :: rest) := by simp
        rw [hsh, skipWs_append_ws _ _ (nl_spaces_ws _), skipWs_cons_not ']' rest (by decide)]
      rw [hskip]
      simp only []
    | acons w zs =>
      rw [printItems_more]
      simp only [List.append_assoc, List.cons_append]
      rw [parseVal_ws g (spacesN (2 * ind)) _ (spacesN_ws _)]
      have hpv := (IH g (by omega)).1 v ind
        (',' :: '\n' :: (printItems ind (.acons w zs) ++ '\n' :: (spacesN m ++ ']' :: rest)))
        (by simp [sizeA] at hsz; omega) (noDigitHead_comma _)
      rw [hpv]
      simp only []
      rw [skipWs_cons_not ',' _ (by decide)]
      simp only []
      have harr : parseArrItems g
          ('\n' :: (printItems ind (.acons w zs) ++ '\n' :: (spacesN m ++ ']' :: rest))) =
          some (.acons w zs, rest) := by
        have hsh : '\n' :: (printItems ind (.acons w zs) ++ '\n' :: (spacesN m ++ ']' :: rest)) =
            ['\n'] ++ (printItems ind (.acons w zs) ++ '\n' :: (spacesN m ++ ']' :: rest)) := rfl
        rw [hsh, parseArrItems_ws g ['\n'] _ (by intro c hc; simp at hc; subst hc; decide)]
        exact (IH g (by omega)).2.1 w zs ind m rest (by simp [sizeA] at hsz ⊢; omega)
      rw [harr]
  · -- object entries
    intro k v kvs ind m rest hsz
    obtain ⟨g, rfl⟩ : ∃ g, fuel = g + 1 :=
      ⟨fuel - 1, by have := sizeV_pos v; simp [sizeO] at hsz; omega⟩
    rw [parseObjItems_succ]
    cases kvs with
    | onil =>
      rw [printEntries_one]
      have hsh : (spacesN (2 * ind) ++ (printStr k ++ ':' :: ' ' :: printVal ind v)) ++
          '\n' :: (spacesN m ++ '\x7d' :: rest) =
          spacesN (2 * ind) ++ ('"' :: (escapeStr k ++ '"' ::
            (':' :: ' ' :: (printVal ind v ++ '\n' :: (spacesN m ++ '\x7d' :: rest))))) := by
        simp [printStr]
      rw [hsh, skipWs_append_ws _ _ (spacesN_ws _), skipWs_cons_not '"' _ (by decide)]
      simp only []
      have hfl : k.length < (escapeStr k ++ '"' ::
          (':' :: ' ' :: (printVal ind v ++ '\n' :: (spacesN m ++ '\x7d' :: rest)))).length + 1 := by
        have := escapeStr_length k
        simp only [List.length_append, List.length_cons]
        omega
      rw [parseStrChars_print k _ _ hfl]
      simp only []
      rw [skipWs_cons_not ':' _ (by decide)]
      simp only []
      rw [show (' ' :: (printVal ind v ++ '\n' :: (spacesN m ++ '\x7d' :: rest))) =
          [' '] ++ (printVal ind v ++ '\n' :: (spacesN m ++ '\x7d' :: rest)) from rfl,
        parseVal_ws g [' '] _ (by intro c hc; simp at hc; subst hc; decide)]
      rw [(IH g (by omega)).1 v ind ('\n' :: (spacesN m ++ '\x7d' :: rest))
        (by simp [sizeO] at hsz; omega) (noDigitHead_nl _)]
      simp only []
      have hskip2 : skipWs ('\n' :: (spacesN m ++ '\x7d' :: rest)) = '\x7d' :: rest := by
        rw [show ('\n' :: (spacesN m ++ '\x7d' :: rest)) =
            ('\n' :: spacesN m) ++ ('\x7d' :: rest) from by simp,
          skipWs_append_ws _ _ (nl_spaces_ws _), skipWs_cons_not '\x7d' rest (by decide)]
      rw [hskip2]
      simp
    | ocons k2 v2 tl2 =>
      rw [printEntries_more]
      have hsh : (spacesN (2 * ind) ++ (printStr k ++ ':' :: ' ' ::
          (printVal ind v ++ (',' :: '\n' :: printEntries ind (.ocons k2 v2 tl2))))) ++
          '\n' :: (spacesN m ++ '\x7d' :: rest) =
          spacesN (2 * ind) ++ ('"' :: (escapeStr k ++ '"' ::
            (':' :: ' ' :: (printVal ind v ++ ',' :: '\n' ::
              (printEntries ind (.ocons k2 v2 tl2) ++
                '\n' :: (spacesN m ++ '\x7d' :: rest)))))) := by
        simp [printStr]
      rw [hsh, skipWs_append_ws _ _ (spacesN_ws _), skipWs_cons_not '"' _ (by decide)]
      simp only []
      have hfl : k.length < (escapeStr k ++ '"' ::
          (':' :: ' ' :: (printVal ind v ++ ',' :: '\n' ::
            (printEntries ind (.ocons k2 v2 tl2) ++
              '\n' :: (spacesN m ++ '\x7d' :: rest))))).length + 1 := by
        have := escapeStr_length k
        simp only [List.length_append, List.length_cons]
        omega
      rw [parseStrChars_print k _ _ hfl]
      simp only []
      rw [skipWs_cons_not ':' _ (by decide)]
      simp only []
      rw [show (' ' :: (printVal ind v ++ ',' :: '\n' ::
          (printEntries ind (.ocons k2 v2 tl2) ++ '\n' :: (spacesN m ++ '\x7d' :: rest)))) =
          [' '] ++ (printVal ind v ++ ',' :: '\n' ::
            (printEntries ind (.ocons k2 v2 tl2) ++ '\n' :: (spacesN m ++ '\x7d' :: rest)))
          from rfl,
        parseVal_ws g [' '] _ (by intro c hc; simp at hc; subst hc; decide)]
      rw [(IH g (by omega)).1 v ind (',' :: '\n' ::
          (printEntries ind (.ocons k2 v2 tl2) ++ '\n' :: (spacesN m ++ '\x7d' :: rest)))
        (by simp [sizeO] at hsz; omega) (noDigitHead_comma _)]
      simp only []
      rw [skipWs_cons_not ',' _ (by decide)]
      simp only []
      have hobj : parseObjItems g ('\n' ::
          (printEntries ind (.ocons k2 v2 tl2) ++ '\n' :: (spacesN m ++ '\x7d' :: rest))) =
          some (.ocons k2 v2 tl2, rest) := by
        rw [show ('\n' :: (printEntries ind (.ocons k2 v2 tl2) ++
            '\n' :: (spacesN m ++ '\x7d' :: rest))) =
            ['\n'] ++ (printEntries ind (.ocons k2 v2 tl2) ++
              '\n' :: (spacesN m ++ '\x7d' :: rest)) from rfl,
          parseObjItems_ws g ['\n'] _ (by intro c hc; simp at hc; subst hc; decide)]
        exact (IH g (by omega)).2.2 k2 v2 tl2 ind m rest (by simp [sizeO] at hsz ⊢; omega)
      rw [hobj]

theorem printInt_length_pos (n : Int) : 1 ≤ (printInt n).length := by
  unfold printInt
  split_ifs
  · simp
  · unfold natDigits
    obtain ⟨d, cs, heq, -, -⟩ := natDigitsGo_head n.natAbs n.natAbs (by omega)
    rw [heq]
    simp

theorem size_le_print (fuel : Nat) :
    (∀ (v : JVal) (ind : Nat), sizeV v ≤ fuel → sizeV v ≤ (printVal ind v).length) ∧
    (∀ (v : JVal) (ys : JArr) (ind : Nat), 1 ≤ ind → sizeA (.acons v ys) ≤ fuel →
      sizeA (.acons v ys) ≤ (printItems ind (.acons v ys)).length) ∧
    (∀ (k : Str) (v : JVal) (kvs : JObj) (ind : Nat), 1 ≤ ind → sizeO (.ocons k v kvs) ≤ fuel →
      sizeO (.ocons k v kvs) ≤ (printEntries ind (.ocons k v kvs)).length) := by
  induction fuel using Nat.strong_induction_on with
  | _ fuel IH =>
  refine ⟨?_, ?_, ?_⟩
  · intro v ind hsz
    cases v with
    | jnull => simp [sizeV, printVal, strL]
    | jbool b => cases b <;> simp [sizeV, printVal, strL]
    | jint n =>
      have := printInt_length_pos n
      simp only [sizeV, printVal]
      omega
    | jstr s =>
      simp [sizeV, printVal, printStr]
    | jarr xs =>
      cases xs with
      | anil => simp [sizeV, sizeA, printVal, strL]
      | acons v ys =>
        have hA := (IH (fuel - 1)
            (by have := sizeV_pos v; simp [sizeV, sizeA] at hsz; omega)).2.1
          v ys (ind + 1) (by omega)
          (by simp [sizeV] at hsz; omega)
        rw [printVal_jarr_cons]
        simp only [sizeV, List.length_cons, List.length_append, spacesN,
          List.length_replicate, List.length_singleton] at hA ⊢
        omega
    | jobj kvs =>
      cases kvs with
      | onil => simp [sizeV, sizeO, printVal]
      | ocons k v tl =>
        have hO := (IH (fuel - 1)
            (by have := sizeV_pos v; simp [sizeV, sizeO] at hsz; omega)).2.2
          k v tl (ind + 1) (by omega)
          (by simp [sizeV] at hsz; omega)
        rw [printVal_jobj_cons]
        simp only [sizeV, List.length_cons, List.length_append, spacesN,
          List.length_replicate, List.length_singleton] at hO ⊢
        omega
  · intro v ys ind hind hsz
    cases ys with
    | anil =>
      have hV := (IH (fuel - 1)
          (by have := sizeV_pos v; simp [sizeA, sizeV] at hsz; omega)).1
        v ind (by simp [sizeA] at hsz; omega)
      rw [printItems_one]
      simp only [sizeA, sizeV, List.length_append, spacesN, List.length_replicate] at hV ⊢
      omega
    | acons w zs =>
      have hV := (IH (fuel - 1)
          (by have := sizeV_pos v; simp [sizeA, sizeV] at hsz; omega)).1
        v ind (by have := sizeV_pos w; simp [sizeA] at hsz; omega)
      have hA := (IH (fuel - 1)
          (by have := sizeV_pos v; simp [sizeA, sizeV] at hsz; omega)).2.1
        w zs ind hind (by have := sizeV_pos v; simp [sizeA] at hsz ⊢; omega)
      rw [printItems_more]
      simp only [sizeA, sizeV, List.length_append, List.length_cons, spacesN,
        List.length_replicate] at hV hA ⊢
      omega
  · intro k v kvs ind hind hsz
    cases kvs with
    | onil =>
      have hV := (IH (fuel - 1)
          (by have := sizeV_pos v; simp [sizeO, sizeV] at hsz; omega)).1
        v ind (by simp [sizeO] at hsz; omega)
      rw [printEntries_one]
      simp only [sizeO, sizeV, List.length_append, List.length_cons, spacesN,
        List.length_replicate, printStr] at hV ⊢
      omega
    | ocons k2 v2 tl =>
      have hV := (IH (fuel - 1)
          (by have := sizeV_pos v; simp [sizeO, sizeV] at hsz; omega)).1
        v ind (by have := sizeV_pos v2; simp [sizeO] at hsz; omega)
      have hO := (IH (fuel - 1)
          (by have := sizeV_pos v; simp [sizeO, sizeV] at hsz; omega)).2.2
        k2 v2 tl ind hind (by have := sizeV_pos v; simp [sizeO] at hsz ⊢; omega)
      rw [printEntries_more]
      simp only [sizeO, sizeV, List.length_append, List.length_cons, spacesN,
        List.length_replicate, printStr] at hV hO ⊢
      omega

theorem json_roundtrip (v : JVal) : json_loads (json_dumps v) = some v := by
  unfold json_loads json_dumps
  have hle : sizeV v ≤ (printVal 0 v).length + 1 := by
    have := (size_le_print (sizeV v)).1 v 0 le_rfl
    omega
  have hpv := (parse_print ((printVal 0 v).length + 1)).1 v 0 [] hle rfl
  rw [List.append_nil] at hpv
  rw [hpv]
  simp [wsOnly]

/-- C8: for the JSON-producing generation tools (`generate_project`,
`create_design_system`), if the cleaned response text parses as JSON the tool
returns its pretty-printed re-serialization, which parses back to a structure
equal to the original parse; if parsing fails, the cleaned raw text is returned
unchanged. -/
theorem c8_json_roundtrip (proxyUrl apiKey : Option Str) (upstream : Str) :
    (∀ v : JVal,
        json_loads (_clean_code_response (_call_openrouter proxyUrl apiKey upstream)) = some v →
          generate_project_result proxyUrl apiKey upstream = json_dumps v ∧
          create_design_system_result proxyUrl apiKey upstream = json_dumps v ∧
          json_loads (json_dumps v) = some v) ∧
    (json_loads (_clean_code_response (_call_openrouter proxyUrl apiKey upstream)) = none →
        generate_project_result proxyUrl apiKey upstream =
          _clean_code_response (_call_openrouter proxyUrl apiKey upstream) ∧
        create_design_system_result proxyUrl apiKey upstream =
          _clean_code_response (_call_openrouter proxyUrl apiKey upstream)) := by
  constructor
  · intro v hv
    refine ⟨?_, ?_, json_roundtrip v⟩ <;>
      simp [generate_project_result, create_design_system_result, jsonPostProcess, hv]
  · intro hn
    constructor <;>
      simp [generate_project_result, create_design_system_result, jsonPostProcess, hn]

/-- Witness for C8 at a concrete fenced JSON response. -/
theorem c8_witness :
    generate_project_result (some (strL "http://proxy")) none
        (strL "```\n[1, true]\n```") =
      json_dumps (.jarr (.acons (.jint 1) (.acons (.jbool true) .anil))) ∧
    json_loads (json_dumps (JVal.jarr (.acons (.jint 1) (.acons (.jbool true) .anil)))) =
      some (.jarr (.acons (.jint 1) (.acons (.jbool true) .anil))) := by
  have h := (c8_json_roundtrip (some (strL "http://proxy")) none
      (strL "```\n[1, true]\n```")).1
    (.jarr (.acons (.jint 1) (.acons (.jbool true) .anil))) (by rfl)
  exact ⟨h.1, h.2.2⟩
